import Mathlib

/-!
Verification development for the mbed clock/event-logger (src/main.cpp).

The C program is shallowly embedded as follows:
* `struct tm` becomes the structure `Tm` with `Int` fields (the C fields are
  plain `int`s and never approach overflow in this program).
* the four-state application machine (`AppState`, the interrupt handlers, and
  one iteration of the `while(1)` loop in `main`) becomes `pressButton` /
  `tick` over an explicit `Machine` state carrying the mode, the pending
  trigger flags, the edit buffer, the edit cursor, the system clock value, the
  two-slot EEPROM log store, and call logs for `record` / `set_time`.
* C strings become `List Char`; `sscanf`/`sprintf`/`strftime` are modelled
  character by character (`scanInt`, `padIntC`, ...) following the C library
  semantics of the exact conversion specifications used by the program.
* `mktime`/`set_time`/`localtime` round a calendar value through the system
  clock; the embedding stores the calendar value itself, which is faithful for
  the in-range values the claims inspect.
* the display (LCD) is an external collaborator: rendering calls are omitted,
  as they read but never change the program state.
-/

/-- The application state machine enumeration (`enum AppState` in main.cpp). -/
inductive AppState
  | IDLE
  | LOG_TIME
  | DISPLAY_LOG
  | SET_TIME
deriving DecidableEq, Repr

/-- `struct tm`, restricted to the fields the program uses.  As in C,
`tm_year` is years since 1900 and `tm_mon` is 0-based. -/
structure Tm where
  tm_year : Int
  tm_mon : Int
  tm_mday : Int
  tm_hour : Int
  tm_min : Int
  tm_sec : Int
deriving DecidableEq, Repr

/-- `getMaxDay(month, year)` from main.cpp: maximum day number of a 1-based
month; February is a fixed 28 (the `year` argument is ignored, exactly as in
the source). -/
def getMaxDay (month year : Int) : Int :=
  if month = 1 ∨ month = 3 ∨ month = 5 ∨ month = 7 ∨ month = 8 ∨ month = 10 ∨ month = 12 then 31
  else if month = 4 ∨ month = 6 ∨ month = 9 ∨ month = 11 then 30
  else if month = 2 then 28
  else 31

/-- `getCurrentFieldName(pos)` from main.cpp.  The C function returns a
constant NUL-free string which `adjustField` compares with `my_strcmp`;
`my_strcmp(a,b) == 0` holds exactly when the strings are equal, so the
embedding compares `String`s with `=`. -/
def getCurrentFieldName (pos : Int) : String :=
  if 0 ≤ pos ∧ pos ≤ 3 then "Year"
  else if 5 ≤ pos ∧ pos ≤ 6 then "Month"
  else if 8 ≤ pos ∧ pos ≤ 9 then "Day"
  else if 11 ≤ pos ∧ pos ≤ 12 then "Hour"
  else if 14 ≤ pos ∧ pos ≤ 15 then "Minute"
  else if 17 ≤ pos ∧ pos ≤ 18 then "Second"
  else "Unknown"

/-- `adjustField(&tm, currentEditPos, delta)` from main.cpp lines 117-152. -/
def adjustField (t : Tm) (currentEditPos delta : Int) : Tm :=
  let field := getCurrentFieldName currentEditPos
  if field = "Year" then
    { t with tm_year := t.tm_year + delta }
  else if field = "Month" then
    let m0 := t.tm_mon + delta
    let m1 := if m0 > 11 then 0 else if m0 < 0 then 11 else m0
    let max_day := getMaxDay (m1 + 1) (t.tm_year + 1900)
    let d1 := if t.tm_mday > max_day then max_day else t.tm_mday
    { t with tm_mon := m1, tm_mday := d1 }
  else if field = "Day" then
    let max_day := getMaxDay (t.tm_mon + 1) (t.tm_year + 1900)
    let d0 := t.tm_mday + delta
    let d1 := if d0 > max_day then 1 else if d0 < 1 then max_day else d0
    { t with tm_mday := d1 }
  else if field = "Hour" then
    let h0 := t.tm_hour + delta
    { t with tm_hour := if h0 > 23 then 0 else if h0 < 0 then 23 else h0 }
  else if field = "Minute" then
    let mi0 := t.tm_min + delta
    { t with tm_min := if mi0 > 59 then 0 else if mi0 < 0 then 59 else mi0 }
  else if field = "Second" then
    let s0 := t.tm_sec + delta
    { t with tm_sec := if s0 > 59 then 0 else if s0 < 0 then 59 else s0 }
  else t

/-- `isEditablePosition(pos)` from main.cpp lines 377-387: a position in
[0, TIME_STR_SIZE-2] = [0,18] that is not one of the separator indices
4, 7, 10, 13, 16. -/
def isEditablePosition (pos : Int) : Bool :=
  if pos < 0 ∨ pos ≥ 19 then false
  else if pos = 4 ∨ pos = 7 ∨ pos = 10 ∨ pos = 13 ∨ pos = 16 then false
  else true

/-! ## The two-slot EEPROM log store

The EEPROM holds two NUL-terminated timestamp strings: `latest` at internal
address LOG1_ADDR and `previous` at LOG2_ADDR.  A slot's content is modelled
as the `List Char` before the terminating NUL; the C emptiness test
`oldLog[0] != '\0'` becomes list non-emptiness. -/

structure Store where
  latest : List Char
  previous : List Char
deriving DecidableEq, Repr

/-- `storeCurrentTime()` from main.cpp lines 259-278, with the formatted
current-time string as an explicit argument (`LogStore.record(timestamp)` in
the design): read the latest slot; if non-empty back it up into the previous
slot; then write the new timestamp into the latest slot. -/
def record (ts : List Char) (st : Store) : Store :=
  { latest := ts
    previous := if st.latest = [] then st.previous else st.latest }

/-- `readBoth()`: the two slots verbatim, latest first (displayLogs reads
LOG1 then LOG2). -/
def readBoth (st : Store) : List Char × List Char :=
  (st.latest, st.previous)

/-! ## The input debouncer

Each button has a `volatile bool <button>_debouncing` flag.  The interrupt
handler returns immediately when the flag is set; otherwise it sets the flag
and attaches a one-shot `Timeout` that clears it `DEBOUNCE_TIME_MS` = 200 ms
later.  So an edge at time `now` is suppressed exactly when a previous edge
was accepted at some `t0` with `now - t0 < 200`; at the expiry instant the
`Timeout` callback has cleared the flag (inclusive expiry boundary, pinned as
in §9 of the design).  The state is modelled by the arming time of the most
recently accepted edge. -/

def DEBOUNCE_TIME_MS : Int := 200

structure DebounceState where
  armedAt : Option Int
deriving DecidableEq, Repr

/-- One physical falling edge at time `now`: `none` when suppressed by the
cooldown, `some ()` when it becomes a logical press (which re-arms the
cooldown at `now`). -/
def signal (s : DebounceState) (now : Int) : Option Unit × DebounceState :=
  match s.armedAt with
  | some t0 =>
      if now - t0 < DEBOUNCE_TIME_MS then (none, s)
      else (some (), { armedAt := some now })
  | none => (some (), { armedAt := some now })

/-! ## Claims C1, C4, C5, C6 -/

/-- C1: two successive `record` calls shift the slots: afterwards the latest
slot holds the second timestamp and the previous slot the first, from any
starting store contents, provided the first timestamp is non-empty. -/
theorem record_shift_on_write (st : Store) (t1 t2 : List Char) (h1 : t1 ≠ []) :
    readBoth (record t2 (record t1 st)) = (t2, t1) := by
  simp [record, readBoth, h1]

/-- Witness for C1 at the scenario input of §8 of the design. -/
theorem record_shift_on_write_witness :
    readBoth (record ("2025/06/15 12:30:00".toList)
        (record ("2025/01/01 00:00:00".toList) ⟨[], []⟩)) =
      ("2025/06/15 12:30:00".toList, "2025/01/01 00:00:00".toList) :=
  record_shift_on_write ⟨[], []⟩ _ _ (by decide)

/-- The behaviour C4 asserts of a Month-field adjustment: the resulting month
is in [0,11]; overshooting past 11 lands at 0 and undershooting below 0 lands
at 11 (wrap-around, not clamping); an in-range sum is kept; for the unit
deltas the program uses this is addition mod 12; and the day-of-month is
clamped down to the new month's maximum. -/
def monthAdjustSpec (t : Tm) (pos delta : Int) : Prop :=
  let r := adjustField t pos delta
  (0 ≤ r.tm_mon ∧ r.tm_mon ≤ 11) ∧
  (t.tm_mon + delta > 11 → r.tm_mon = 0) ∧
  (t.tm_mon + delta < 0 → r.tm_mon = 11) ∧
  (0 ≤ t.tm_mon + delta → t.tm_mon + delta ≤ 11 → r.tm_mon = t.tm_mon + delta) ∧
  (0 ≤ t.tm_mon → t.tm_mon ≤ 11 → delta = 1 → r.tm_mon = (t.tm_mon + 1) % 12) ∧
  (0 ≤ t.tm_mon → t.tm_mon ≤ 11 → delta = -1 → r.tm_mon = (t.tm_mon + 11) % 12) ∧
  r.tm_mday = min t.tm_mday (getMaxDay (r.tm_mon + 1) (t.tm_year + 1900)) ∧
  r.tm_year = t.tm_year ∧ r.tm_hour = t.tm_hour ∧
  r.tm_min = t.tm_min ∧ r.tm_sec = t.tm_sec

/-- C4: adjusting with the cursor anywhere in the Month field (positions 5-6)
wraps the month into [0,11] and clamps the day to the new month's maximum. -/
theorem adjustField_month (t : Tm) (pos delta : Int)
    (h5 : 5 ≤ pos) (h6 : pos ≤ 6) : monthAdjustSpec t pos delta := by
  have hf : getCurrentFieldName pos = "Month" := by
    unfold getCurrentFieldName
    rw [if_neg (by omega), if_pos (by omega)]
  unfold monthAdjustSpec adjustField
  rw [hf]
  rw [if_neg (by decide), if_pos rfl]
  unfold getMaxDay
  dsimp only
  split_ifs <;> simp_all <;> omega

/-- Witness for C4: incrementing Month from January with Day = 31 gives
February and clamps the day down to 28. -/
theorem adjustField_month_witness :
    monthAdjustSpec ⟨125, 0, 31, 0, 0, 0⟩ 5 1 :=
  adjustField_month ⟨125, 0, 31, 0, 0, 0⟩ 5 1 (by decide) (by decide)

/-- The behaviour C5 asserts of a Day-field adjustment: the day is wrapped
into [1, maxDayForCurrentMonth] — past the top goes to 1, past the bottom
goes to the maximum, in-range sums are kept — and all other fields are
unchanged. -/
def dayAdjustSpec (t : Tm) (pos delta : Int) : Prop :=
  let maxd := getMaxDay (t.tm_mon + 1) (t.tm_year + 1900)
  let r := adjustField t pos delta
  (t.tm_mday + delta > maxd → r.tm_mday = 1) ∧
  (t.tm_mday + delta < 1 → r.tm_mday = maxd) ∧
  (1 ≤ t.tm_mday + delta → t.tm_mday + delta ≤ maxd → r.tm_mday = t.tm_mday + delta) ∧
  (1 ≤ r.tm_mday ∧ r.tm_mday ≤ maxd) ∧
  r.tm_mon = t.tm_mon ∧ r.tm_year = t.tm_year ∧ r.tm_hour = t.tm_hour ∧
  r.tm_min = t.tm_min ∧ r.tm_sec = t.tm_sec

/-- C5: adjusting with the cursor anywhere in the Day field (positions 8-9)
wraps the day into [1, max day of the current month], and the month-length
table is 31 for Jan/Mar/May/Jul/Aug/Oct/Dec, 30 for Apr/Jun/Sep/Nov and a
fixed 28 for February in every year. -/
theorem adjustField_day (t : Tm) (pos delta : Int)
    (h8 : 8 ≤ pos) (h9 : pos ≤ 9) :
    dayAdjustSpec t pos delta ∧
    (∀ y : Int, getMaxDay 1 y = 31 ∧ getMaxDay 3 y = 31 ∧ getMaxDay 5 y = 31 ∧
      getMaxDay 7 y = 31 ∧ getMaxDay 8 y = 31 ∧ getMaxDay 10 y = 31 ∧
      getMaxDay 12 y = 31 ∧ getMaxDay 4 y = 30 ∧ getMaxDay 6 y = 30 ∧
      getMaxDay 9 y = 30 ∧ getMaxDay 11 y = 30 ∧ getMaxDay 2 y = 28) := by
  constructor
  · have hf : getCurrentFieldName pos = "Day" := by
      unfold getCurrentFieldName
      rw [if_neg (by omega), if_neg (by omega), if_pos (by omega)]
    have hmax : getMaxDay (t.tm_mon + 1) (t.tm_year + 1900) = 31 ∨
        getMaxDay (t.tm_mon + 1) (t.tm_year + 1900) = 30 ∨
        getMaxDay (t.tm_mon + 1) (t.tm_year + 1900) = 28 := by
      unfold getMaxDay; split_ifs <;> simp
    unfold dayAdjustSpec adjustField
    rw [hf]
    rw [if_neg (by decide), if_neg (by decide), if_pos rfl]
    dsimp only
    split_ifs <;> simp_all <;> omega
  · intro y
    unfold getMaxDay
    norm_num

/-- Witness for C5: incrementing the day past 28 in February wraps to 1. -/
theorem adjustField_day_witness :
    dayAdjustSpec ⟨125, 1, 28, 0, 0, 0⟩ 8 1 :=
  (adjustField_day ⟨125, 1, 28, 0, 0, 0⟩ 8 1 (by decide) (by decide)).1

/-- C6: from an unarmed debounce state, a first physical edge always becomes
a logical press; a second edge on the same button strictly within the 200 ms
cooldown is suppressed (so the pair yields exactly one logical press), while
a second edge more than 200 ms after the first yields a second logical
press. -/
theorem debounce_two_edges (t1 t2 : Int) (s0 : DebounceState)
    (h0 : s0.armedAt = none) :
    (signal s0 t1).1 = some () ∧
    (t2 - t1 < DEBOUNCE_TIME_MS → (signal (signal s0 t1).2 t2).1 = none) ∧
    (t2 - t1 > DEBOUNCE_TIME_MS → (signal (signal s0 t1).2 t2).1 = some ()) := by
  have hs0 : s0 = ⟨none⟩ := by cases s0; simp_all
  subst hs0
  refine ⟨rfl, ?_, ?_⟩ <;> intro h
  · show (signal ⟨some t1⟩ t2).1 = none
    simp only [signal]
    rw [if_pos h]
  · show (signal ⟨some t1⟩ t2).1 = some ()
    simp only [signal]
    rw [if_neg (by omega)]

/-- Witness for C6: edges at 0 ms and 100 ms (within the window), and the
first edge from the unarmed state. -/
theorem debounce_two_edges_witness :
    (signal ⟨none⟩ 0).1 = some () ∧
    ((100 : Int) - 0 < DEBOUNCE_TIME_MS → (signal (signal ⟨none⟩ 0).2 100).1 = none) ∧
    ((100 : Int) - 0 > DEBOUNCE_TIME_MS → (signal (signal ⟨none⟩ 0).2 100).1 = some ()) :=
  debounce_two_edges 0 100 ⟨none⟩ rfl

/-! ## C string scanning and printing

`sscanf`/`sprintf`/`strftime` are modelled character by character for exactly
the conversion specifications the program uses.  A `%Nd` conversion skips
leading whitespace, then consumes an optional sign followed by decimal digits,
at most `N` characters in total (the sign counts towards the width); it fails
when no digit is consumed.  A literal character in the format matches itself;
a blank in the format skips any run of whitespace.  `%0Nd` printing emits the
decimal digits left-padded with zeros to width `N` (a minus sign counts
towards the width and is never padded over); values too wide for `N` are
printed in full. -/

/-- C `isdigit` on the scanned character. -/
def isScanDigit (c : Char) : Bool := decide (48 ≤ c.toNat ∧ c.toNat ≤ 57)

/-- C `isspace` (C locale): space, tab, newline, vertical tab, form feed,
carriage return. -/
def isSpaceChar (c : Char) : Bool := decide (c.toNat = 32 ∨ (9 ≤ c.toNat ∧ c.toNat ≤ 13))

/-- Drop leading whitespace. -/
def skipWS : List Char → List Char
  | [] => []
  | c :: cs => if isSpaceChar c then skipWS cs else c :: cs

/-- Consume up to `w` further digits, accumulating their value onto `acc`. -/
def scanDigitsAux : Nat → List Char → Int → Int × List Char
  | 0, cs, acc => (acc, cs)
  | _ + 1, [], acc => (acc, [])
  | w + 1, c :: cs, acc =>
      if isScanDigit c then scanDigitsAux w cs (acc * 10 + ((c.toNat : Int) - 48))
      else (acc, c :: cs)

/-- An unsigned decimal number of at most `w` digits; fails when the first
character is not a digit (or `w = 0`). -/
def scanUInt (w : Nat) (cs : List Char) : Option (Int × List Char) :=
  match w, cs with
  | 0, _ => none
  | _ + 1, [] => none
  | w + 1, c :: cs =>
      if isScanDigit c then some (scanDigitsAux w cs ((c.toNat : Int) - 48))
      else none

/-- A `%wd` conversion: skip whitespace, optional sign (counted in the
width), then digits. -/
def scanInt (w : Nat) (cs : List Char) : Option (Int × List Char) :=
  match skipWS cs with
  | [] => none
  | c :: rest =>
      if c = '-' then (scanUInt (w - 1) rest).map (fun p => (-p.1, p.2))
      else if c = '+' then scanUInt (w - 1) rest
      else scanUInt w (c :: rest)

/-- A literal character in a scan format matches exactly itself. -/
def matchLit (c : Char) : List Char → Option (List Char)
  | [] => none
  | d :: rest => if d = c then some rest else none

/-- `parseEditBufferToTm(buffer, &tm)` from main.cpp lines 391-406:
`sscanf(buffer, "%4d/%2d/%2d %2d:%2d:%2d", ...)` followed by the conversion
to `struct tm` offsets (`tm_year` = year - 1900, `tm_mon` = month - 1).
Returns `none` exactly when `sscanf` converts fewer than 6 groups. -/
def parseEditBufferToTm (buffer : List Char) : Option Tm := do
  let (year, r1) ← scanInt 4 buffer
  let r2 ← matchLit '/' r1
  let (mon, r3) ← scanInt 2 r2
  let r4 ← matchLit '/' r3
  let (day, r5) ← scanInt 2 r4
  let r6 := skipWS r5
  let (hour, r7) ← scanInt 2 r6
  let r8 ← matchLit ':' r7
  let (minute, r9) ← scanInt 2 r8
  let r10 ← matchLit ':' r9
  let (second, _) ← scanInt 2 r10
  pure ⟨year - 1900, mon - 1, day, hour, minute, second⟩

/-- The character of a decimal digit. -/
def digitChar (n : Nat) : Char := Char.ofNat (48 + n)

/-- Decimal digits of `m`, most significant first, fuelled recursion. -/
def natDigitsAux : Nat → Nat → List Char → List Char
  | 0, _, acc => acc
  | fuel + 1, m, acc =>
      if m < 10 then digitChar m :: acc
      else natDigitsAux fuel (m / 10) (digitChar (m % 10) :: acc)

/-- Decimal digits of `m` (just `"0"` for 0). -/
def natDigits (m : Nat) : List Char := natDigitsAux (m + 1) m []

/-- Left-pad a digit string with zeros to width `w` (no-op when already at
least that wide). -/
def leftPad (w : Nat) (ds : List Char) : List Char :=
  List.replicate (w - ds.length) '0' ++ ds

/-- C `printf("%0wd", n)`: zero-padded to width `w`, the sign counted in the
width, wider values printed in full. -/
def padIntC (w : Nat) (n : Int) : List Char :=
  if n < 0 then '-' :: leftPad (w - 1) (natDigits n.natAbs)
  else leftPad w (natDigits n.natAbs)

/-- Plain decimal rendering of an integer (C `printf("%d", n)`). -/
def intDec (n : Int) : List Char :=
  if n < 0 then '-' :: natDigits n.natAbs else natDigits n.natAbs

/-- `strftime(buf, 20, "%Y/%m/%d %H:%M:%S", &tm)` as used to fill the edit
buffer and the log records.  `%Y` prints the year (`tm_year + 1900`) as a
plain decimal number; the other fields are zero-padded to width 2.  For the
four-digit years this program manipulates the result coincides with the
zero-padded fixed-width layout. -/
def formatTm (t : Tm) : List Char :=
  intDec (t.tm_year + 1900) ++ '/' :: padIntC 2 (t.tm_mon + 1)
    ++ '/' :: padIntC 2 t.tm_mday ++ ' ' :: padIntC 2 t.tm_hour
    ++ ':' :: padIntC 2 t.tm_min ++ ':' :: padIntC 2 t.tm_sec

/-- `sprintf(out, "%04d/%02d/%02d %02d:%02d:%02d", ...)` — the zero-padded
fixed-width normalisation used by `displayLogs` and `updateSetTimeDisplay`,
applied to a calendar value (re-adding the `struct tm` offsets). -/
def formatDisp (t : Tm) : List Char :=
  padIntC 4 (t.tm_year + 1900) ++ '/' :: padIntC 2 (t.tm_mon + 1)
    ++ '/' :: padIntC 2 t.tm_mday ++ ' ' :: padIntC 2 t.tm_hour
    ++ ':' :: padIntC 2 t.tm_min ++ ':' :: padIntC 2 t.tm_sec

/-! ## The application machine

One `Machine` value holds everything the interrupt handlers and the main
loop of main.cpp read or write: the mode, the four pending-trigger flags, the
edit buffer and cursor, the system clock (as the calendar value last given to
`set_time`), the EEPROM store, and the histories of `record` /
`set_time`-commit calls made from the loop. -/

/-- The four physical buttons, named as their `InterruptIn` objects in
main.cpp: `userButton` (log), `replayButton` (toggle/decrement),
`setTimeButton` (enter/advance), `incrementButton`. -/
inductive Button
  | user
  | replay
  | setTime
  | increment
deriving DecidableEq, Repr

structure Machine where
  state : AppState
  timeSetRequested : Bool
  incrementPressed : Bool
  decrementPressed : Bool
  nextPositionPressed : Bool
  editBuffer : List Char
  currentEditPos : Int
  sysTime : Tm
  store : Store
  recordCalls : List (List Char)
  setTimeCalls : List Tm
deriving DecidableEq, Repr

/-- The logical (post-debounce) part of the four interrupt handlers
`onUserButtonPressed`, `onReplayButtonPressed`, `onSetTimeButtonPressed`,
`onIncrementButtonPressed` (main.cpp lines 156-218): each sets a pending flag
or toggles the mode, depending on the current mode. -/
def pressButton (b : Button) (m : Machine) : Machine :=
  match b with
  | Button.user =>
      if m.state = AppState.IDLE then { m with state := AppState.LOG_TIME } else m
  | Button.replay =>
      if m.state = AppState.SET_TIME then { m with decrementPressed := true }
      else if m.state = AppState.IDLE then { m with state := AppState.DISPLAY_LOG }
      else if m.state = AppState.DISPLAY_LOG then { m with state := AppState.IDLE }
      else m
  | Button.setTime =>
      if m.state = AppState.IDLE then { m with timeSetRequested := true }
      else if m.state = AppState.SET_TIME then { m with nextPositionPressed := true }
      else m
  | Button.increment =>
      if m.state = AppState.SET_TIME then { m with incrementPressed := true } else m

/-- The `while (currentEditPos < 19 && !isEditablePosition(currentEditPos))
currentEditPos++` search in `main` (lines 487-489), fuelled. -/
def firstEditablePos : Nat → Int → Int
  | 0, pos => pos
  | fuel + 1, pos =>
      if pos < 19 ∧ ¬(isEditablePosition pos = true) then firstEditablePos fuel (pos + 1)
      else pos

/-- The `do { currentEditPos = (currentEditPos + 1) % 19; if (currentEditPos
== startPos) break; } while (!isEditablePosition(currentEditPos))` loop in
`main` (lines 543-547), fuelled (19 steps always suffice to revisit the start
position). -/
def advanceLoop : Nat → Int → Int → Int
  | 0, pos, _ => pos
  | fuel + 1, pos, startPos =>
      let p := (pos + 1) % 19
      if p = startPos then p
      else if isEditablePosition p then p
      else advanceLoop fuel p startPos

/-- `advanceCursor(pos)`: the cursor position after one advance request from
`pos`. -/
def advanceCursor (pos : Int) : Int := advanceLoop 19 pos pos

/-- Main-loop step 1 (lines 477-491): a pending time-set request in IDLE
enters SET_TIME, snapshots the current time into the edit buffer, and places
the cursor on the first editable position. -/
def tickEnter (m : Machine) : Machine :=
  if m.timeSetRequested = true ∧ m.state = AppState.IDLE then
    { m with timeSetRequested := false
             state := AppState.SET_TIME
             editBuffer := formatTm m.sysTime
             currentEditPos := firstEditablePos 19 0 }
  else m

/-- Main-loop step 2 (lines 494-497): in LOG_TIME, store the current time in
the EEPROM and return to IDLE. -/
def tickLog (m : Machine) : Machine :=
  if m.state = AppState.LOG_TIME then
    { m with store := record (formatTm m.sysTime) m.store
             recordCalls := m.recordCalls ++ [formatTm m.sysTime]
             state := AppState.IDLE }
  else m

/-- SET_TIME handler for a pending increment (lines 503-513): re-parse the
edit buffer; on success adjust the field under the cursor by +1 and
re-format. -/
def tickIncrement (m : Machine) : Machine :=
  if m.incrementPressed = true then
    let m' := { m with incrementPressed := false }
    match parseEditBufferToTm m'.editBuffer with
    | some ct => { m' with editBuffer := formatTm (adjustField ct m'.currentEditPos 1) }
    | none => m'
  else m

/-- SET_TIME handler for a pending decrement (lines 516-525): same with
delta = -1. -/
def tickDecrement (m : Machine) : Machine :=
  if m.decrementPressed = true then
    let m' := { m with decrementPressed := false }
    match parseEditBufferToTm m'.editBuffer with
    | some ct => { m' with editBuffer := formatTm (adjustField ct m'.currentEditPos (-1)) }
    | none => m'
  else m

/-- SET_TIME handler for a pending advance (lines 529-550): at position 18,
commit — parse the buffer and, on success, `mktime`/`set_time` the edited
value — and return to IDLE; otherwise move the cursor to the next editable
position. -/
def tickAdvance (m : Machine) : Machine :=
  if m.nextPositionPressed = true then
    let m' := { m with nextPositionPressed := false }
    if m'.currentEditPos = (18 : Int) then
      match parseEditBufferToTm m'.editBuffer with
      | some nt =>
          { m' with state := AppState.IDLE
                    sysTime := nt
                    setTimeCalls := m'.setTimeCalls ++ [nt] }
      | none => { m' with state := AppState.IDLE }
    else { m' with currentEditPos := advanceCursor m'.currentEditPos }
  else m

/-- Main-loop step 4 (lines 501-551): the three pending-flag handlers run in
order while in SET_TIME. -/
def tickSetTime (m : Machine) : Machine :=
  if m.state = AppState.SET_TIME then tickAdvance (tickDecrement (tickIncrement m))
  else m

/-- One full iteration of the `while(1)` loop of `main` (lines 474-557).  The
DISPLAY_LOG and IDLE branches only render and are omitted.  Note that a
time-set request granted in step 1 flows into the SET_TIME block of the same
iteration, exactly as the sequential `if`s do in C. -/
def tick (m : Machine) : Machine := tickSetTime (tickLog (tickEnter m))

/-- The machine state after the initialisation in `main` (lines 453-471):
IDLE, no pending triggers, clock set to 2025/01/01 00:00:00.  The EEPROM
contents survive power cycles, so the store is a parameter. -/
def initMachine (st : Store) : Machine :=
  { state := AppState.IDLE
    timeSetRequested := false
    incrementPressed := false
    decrementPressed := false
    nextPositionPressed := false
    editBuffer := []
    currentEditPos := 0
    sysTime := ⟨125, 0, 1, 0, 0, 0⟩
    store := st
    recordCalls := []
    setTimeCalls := [] }

/-- A logical trigger reaching the machine: a debounced button press
(asynchronous, between loop iterations) or one main-loop iteration. -/
inductive Event
  | press (b : Button)
  | tick
deriving DecidableEq, Repr

def step (m : Machine) : Event → Machine
  | Event.press b => pressButton b m
  | Event.tick => tick m

def run (m : Machine) (evs : List Event) : Machine := evs.foldl step m

/-! ## Claims about the state machine: C2, C7, C10 -/

/-- The (button press, current state) pairs that occur as rows of the §4.2
transition table. -/
def buttonTableRow : Button → AppState → Prop
  | Button.user, AppState.IDLE => True
  | Button.replay, AppState.IDLE => True
  | Button.replay, AppState.DISPLAY_LOG => True
  | Button.replay, AppState.SET_TIME => True
  | Button.setTime, AppState.IDLE => True
  | Button.setTime, AppState.SET_TIME => True
  | Button.increment, AppState.SET_TIME => True
  | _, _ => False

/-- `tickIncrement` only touches the increment flag and the edit buffer. -/
theorem tickIncrement_frame (m : Machine) :
    (tickIncrement m).state = m.state ∧
    (tickIncrement m).timeSetRequested = m.timeSetRequested ∧
    (tickIncrement m).decrementPressed = m.decrementPressed ∧
    (tickIncrement m).nextPositionPressed = m.nextPositionPressed ∧
    (tickIncrement m).currentEditPos = m.currentEditPos ∧
    (tickIncrement m).sysTime = m.sysTime ∧
    (tickIncrement m).store = m.store ∧
    (tickIncrement m).recordCalls = m.recordCalls ∧
    (tickIncrement m).setTimeCalls = m.setTimeCalls := by
  unfold tickIncrement
  dsimp only
  split_ifs
  · split <;> simp
  · simp

/-- `tickDecrement` only touches the decrement flag and the edit buffer. -/
theorem tickDecrement_frame (m : Machine) :
    (tickDecrement m).state = m.state ∧
    (tickDecrement m).timeSetRequested = m.timeSetRequested ∧
    (tickDecrement m).incrementPressed = m.incrementPressed ∧
    (tickDecrement m).nextPositionPressed = m.nextPositionPressed ∧
    (tickDecrement m).currentEditPos = m.currentEditPos ∧
    (tickDecrement m).sysTime = m.sysTime ∧
    (tickDecrement m).store = m.store ∧
    (tickDecrement m).recordCalls = m.recordCalls ∧
    (tickDecrement m).setTimeCalls = m.setTimeCalls := by
  unfold tickDecrement
  dsimp only
  split_ifs
  · split <;> simp
  · simp

/-- A tick never leaves the machine in the transient LOG_TIME mode. -/
theorem tick_state_ne_log (m : Machine) : (tick m).state ≠ AppState.LOG_TIME := by
  have hlog : (tickLog (tickEnter m)).state ≠ AppState.LOG_TIME := by
    unfold tickLog
    split_ifs with h <;> simp_all
  unfold tick tickSetTime
  split_ifs with hset
  · have hadv : ∀ x : Machine, (tickAdvance x).state = x.state ∨
        (tickAdvance x).state = AppState.IDLE := by
      intro x
      unfold tickAdvance
      dsimp only
      split_ifs
      · split <;> simp
      · simp
      · simp
    rcases hadv (tickDecrement (tickIncrement (tickLog (tickEnter m)))) with h | h <;> rw [h]
    · rw [(tickDecrement_frame _).1, (tickIncrement_frame _).1]
      exact hlog
    · simp
  · exact hlog

/-- C2 (no-op law): a debounced button press whose (trigger, mode) pair is
not a row of the §4.2 table leaves the whole machine state — in particular
the mode — unchanged; and a scheduler tick with no pending press to execute
(no time-set request, no pending advance) changes the mode only out of the
transient LOG_TIME state. -/
theorem noop_law :
    (∀ (m : Machine) (b : Button), ¬ buttonTableRow b m.state → pressButton b m = m) ∧
    (∀ m : Machine, m.state ≠ AppState.LOG_TIME → m.timeSetRequested = false →
      m.nextPositionPressed = false → (tick m).state = m.state) := by
  constructor
  · intro m b hn
    cases b <;> cases hs : m.state <;>
      simp_all [pressButton, buttonTableRow]
  · intro m hlog hts hnp
    have h1 : tickEnter m = m := by
      unfold tickEnter
      rw [if_neg]
      simp [hts]
    have h2 : tickLog (tickEnter m) = m := by
      rw [h1]
      unfold tickLog
      rw [if_neg hlog]
    unfold tick tickSetTime
    rw [h2]
    split_ifs with hset
    · have hnp2 : (tickDecrement (tickIncrement m)).nextPositionPressed = false := by
        rw [(tickDecrement_frame _).2.2.2.1, (tickIncrement_frame _).2.2.2.1, hnp]
      have hadv : tickAdvance (tickDecrement (tickIncrement m)) =
          tickDecrement (tickIncrement m) := by
        unfold tickAdvance
        rw [if_neg]
        simp [hnp2]
      rw [hadv, (tickDecrement_frame _).1, (tickIncrement_frame _).1, hset]
    · rfl

/-- Witness for C2: a LogButton press in DISPLAY_LOG is a no-op, and a tick
from quiescent IDLE keeps the mode. -/
theorem noop_law_witness :
    pressButton Button.user { initMachine ⟨[], []⟩ with state := AppState.DISPLAY_LOG } =
      { initMachine ⟨[], []⟩ with state := AppState.DISPLAY_LOG } ∧
    (tick (initMachine ⟨[], []⟩)).state = (initMachine ⟨[], []⟩).state :=
  ⟨noop_law.1 _ Button.user (fun h => h), noop_law.2 _ (by decide) rfl rfl⟩

/-- The behaviour C7 asserts: from Idle, a debounced LogButton press puts the
machine in the transient LOG_TIME mode; the next tick returns it to IDLE
having called `record` exactly once, with the formatted current time; and no
tick ever ends with the machine still in LOG_TIME. -/
def logScenarioSpec (m : Machine) : Prop :=
  (pressButton Button.user m).state = AppState.LOG_TIME ∧
  (tick (pressButton Button.user m)).state = AppState.IDLE ∧
  (tick (pressButton Button.user m)).recordCalls = m.recordCalls ++ [formatTm m.sysTime] ∧
  (tick (pressButton Button.user m)).store = record (formatTm m.sysTime) m.store ∧
  (∀ m' : Machine, (tick m').state ≠ AppState.LOG_TIME)

/-- C7: the LogButton scenario Idle → LoggingTime → Idle within one tick,
with exactly one `record` call. -/
theorem log_button_scenario (m : Machine) (hIdle : m.state = AppState.IDLE) :
    logScenarioSpec m := by
  have hm1 : pressButton Button.user m = { m with state := AppState.LOG_TIME } := by
    simp [pressButton, hIdle]
  refine ⟨by rw [hm1], ?_, ?_, ?_, tick_state_ne_log⟩ <;>
    rw [hm1] <;>
    simp [tick, tickEnter, tickLog, tickSetTime]

/-- Witness for C7 at the startup machine. -/
theorem log_button_scenario_witness : logScenarioSpec (initMachine ⟨[], []⟩) :=
  log_button_scenario (initMachine ⟨[], []⟩) rfl

/-- C10: an advance trigger at cursor position 18 whose edit buffer does not
parse still returns the machine to IDLE, but `set_time` is never called and
the running system time is kept. -/
theorem commit_parse_failure (m : Machine)
    (hst : m.state = AppState.SET_TIME) (hpos : m.currentEditPos = 18)
    (hadv : m.nextPositionPressed = true)
    (hbad : parseEditBufferToTm m.editBuffer = none) :
    (tick m).state = AppState.IDLE ∧
    (tick m).setTimeCalls = m.setTimeCalls ∧
    (tick m).sysTime = m.sysTime := by
  rcases m with ⟨st, tsr, ip, dp, npp, buf, pos, sys, sto, rc, stc⟩
  dsimp only at hst hpos hadv hbad
  subst hst hpos hadv
  cases tsr <;> cases ip <;> cases dp <;>
    simp [tick, tickEnter, tickLog, tickSetTime, tickIncrement, tickDecrement,
      tickAdvance, hbad]

/-- Witness for C10: a machine mid-edit at position 18 whose buffer was
corrupted to a non-numeric string. -/
theorem commit_parse_failure_witness :
    (tick { initMachine ⟨[], []⟩ with
              state := AppState.SET_TIME
              nextPositionPressed := true
              currentEditPos := 18
              editBuffer := "XXXX/01/01 00:00:00".toList }).state = AppState.IDLE ∧
    (tick { initMachine ⟨[], []⟩ with
              state := AppState.SET_TIME
              nextPositionPressed := true
              currentEditPos := 18
              editBuffer := "XXXX/01/01 00:00:00".toList }).setTimeCalls =
      ({ initMachine ⟨[], []⟩ with
           state := AppState.SET_TIME
           nextPositionPressed := true
           currentEditPos := 18
           editBuffer := "XXXX/01/01 00:00:00".toList } : Machine).setTimeCalls ∧
    (tick { initMachine ⟨[], []⟩ with
              state := AppState.SET_TIME
              nextPositionPressed := true
              currentEditPos := 18
              editBuffer := "XXXX/01/01 00:00:00".toList }).sysTime =
      ({ initMachine ⟨[], []⟩ with
           state := AppState.SET_TIME
           nextPositionPressed := true
           currentEditPos := 18
           editBuffer := "XXXX/01/01 00:00:00".toList } : Machine).sysTime :=
  commit_parse_failure _ rfl rfl rfl (by decide)

/-! ## Claim C3 (the Enter/advance/commit scenario) -/

/-- One "advance trigger" is an EnterButton press while editing followed by
the main-loop iteration that processes it; `advEvents n` is `n` consecutive
such triggers. -/
def advEvents (n : Nat) : List Event :=
  (List.replicate n [Event.press Button.setTime, Event.tick]).flatten

set_option maxRecDepth 10000

/-- C3 counterexample: from the startup machine, an EnterButton press
(entering SettingTime at cursor 0) followed by 18 consecutive advance
triggers does NOT leave the machine in Idle: the editable positions are only
14, so the commit already happens on the 14th advance, and advances 15-18
re-enter SettingTime and move the cursor again. -/
theorem advance_eighteen_not_idle :
    (run (initMachine ⟨[], []⟩)
        ([Event.press Button.setTime, Event.tick] ++ advEvents 18)).state ≠
      AppState.IDLE := by
  decide

/-- C3 amended: from Idle, the EnterButton press enters SettingTime with the
cursor at position 0 and the current time snapshotted into the edit buffer;
13 consecutive advance triggers reach the last field (pos = 18) without
committing, and the 14th advance commits: the machine returns to Idle having
called `set_time` exactly once, with the edited value. -/
theorem advance_fourteen_commits :
    ((run (initMachine ⟨[], []⟩) [Event.press Button.setTime, Event.tick]).state =
        AppState.SET_TIME ∧
      (run (initMachine ⟨[], []⟩) [Event.press Button.setTime, Event.tick]).currentEditPos = 0 ∧
      (run (initMachine ⟨[], []⟩) [Event.press Button.setTime, Event.tick]).editBuffer =
        "2025/01/01 00:00:00".toList ∧
      (run (initMachine ⟨[], []⟩) [Event.press Button.setTime, Event.tick]).setTimeCalls = []) ∧
    ((run (initMachine ⟨[], []⟩)
        ([Event.press Button.setTime, Event.tick] ++ advEvents 13)).state =
        AppState.SET_TIME ∧
      (run (initMachine ⟨[], []⟩)
        ([Event.press Button.setTime, Event.tick] ++ advEvents 13)).currentEditPos = 18 ∧
      (run (initMachine ⟨[], []⟩)
        ([Event.press Button.setTime, Event.tick] ++ advEvents 13)).setTimeCalls = []) ∧
    ((run (initMachine ⟨[], []⟩)
        ([Event.press Button.setTime, Event.tick] ++ advEvents 14)).state = AppState.IDLE ∧
      (run (initMachine ⟨[], []⟩)
        ([Event.press Button.setTime, Event.tick] ++ advEvents 14)).setTimeCalls =
        [⟨125, 0, 1, 0, 0, 0⟩] ∧
      (run (initMachine ⟨[], []⟩)
        ([Event.press Button.setTime, Event.tick] ++ advEvents 14)).sysTime =
        ⟨125, 0, 1, 0, 0, 0⟩) := by
  decide

/-! ## Claim C8 (the cursor invariant) -/

/-- The cursor invariant: whenever the machine is in SET_TIME, the cursor is
on an editable (in-range, non-separator) position. -/
def cursorInv (m : Machine) : Prop :=
  m.state = AppState.SET_TIME → isEditablePosition m.currentEditPos = true

/-- One advance step from an editable position lands on an editable
position. -/
theorem advanceCursor_editable (p : Int) (hp : isEditablePosition p = true) :
    isEditablePosition (advanceCursor p) = true := by
  have hb : 0 ≤ p ∧ p < 19 := by
    unfold isEditablePosition at hp
    split_ifs at hp with h1 h2
    omega
  obtain ⟨hb1, hb2⟩ := hb
  interval_cases p <;> revert hp <;> decide

/-- Button presses preserve the cursor invariant. -/
theorem cursorInv_press (b : Button) (m : Machine) (h : cursorInv m) :
    cursorInv (pressButton b m) := by
  unfold cursorInv at *
  cases b <;> unfold pressButton <;> split_ifs <;> simp_all

/-- Entering SET_TIME places the cursor on the first editable position. -/
theorem cursorInv_tickEnter (m : Machine) (h : cursorInv m) : cursorInv (tickEnter m) := by
  unfold cursorInv tickEnter at *
  split_ifs with h1
  · intro _
    exact (by decide : isEditablePosition (firstEditablePos 19 0) = true)
  · exact h

/-- The LOG_TIME branch preserves the cursor invariant. -/
theorem cursorInv_tickLog (m : Machine) (h : cursorInv m) : cursorInv (tickLog m) := by
  unfold cursorInv tickLog at *
  split_ifs with h1
  · intro hs
    simp at hs
  · exact h

/-- The increment handler preserves the cursor invariant. -/
theorem cursorInv_tickIncrement (m : Machine) (h : cursorInv m) :
    cursorInv (tickIncrement m) := by
  intro hs
  rw [(tickIncrement_frame m).2.2.2.2.1]
  apply h
  rw [← (tickIncrement_frame m).1]
  exact hs

/-- The decrement handler preserves the cursor invariant. -/
theorem cursorInv_tickDecrement (m : Machine) (h : cursorInv m) :
    cursorInv (tickDecrement m) := by
  intro hs
  rw [(tickDecrement_frame m).2.2.2.2.1]
  apply h
  rw [← (tickDecrement_frame m).1]
  exact hs

/-- The advance handler preserves the cursor invariant, given that the
cursor starts on an editable position. -/
theorem cursorInv_tickAdvance (m : Machine)
    (h : isEditablePosition m.currentEditPos = true) :
    cursorInv (tickAdvance m) := by
  unfold cursorInv tickAdvance
  dsimp only
  split_ifs with h1 h2
  · split <;> intro hs <;> simp at hs
  · intro _
    exact advanceCursor_editable _ h
  · intro _
    exact h

/-- One whole tick preserves the cursor invariant. -/
theorem cursorInv_tick (m : Machine) (h : cursorInv m) : cursorInv (tick m) := by
  have h2 : cursorInv (tickLog (tickEnter m)) :=
    cursorInv_tickLog _ (cursorInv_tickEnter m h)
  unfold tick tickSetTime
  split_ifs with hs
  · apply cursorInv_tickAdvance
    rw [(tickDecrement_frame _).2.2.2.2.1, (tickIncrement_frame _).2.2.2.2.1]
    exact h2 hs
  · exact h2

/-- The invariant holds along every run. -/
theorem cursorInv_run (m : Machine) (evs : List Event) (h : cursorInv m) :
    cursorInv (run m evs) := by
  induction evs generalizing m with
  | nil => exact h
  | cons e evs ih =>
      cases e with
      | press b => exact ih _ (cursorInv_press b m h)
      | tick => exact ih _ (cursorInv_tick m h)

/-- C8: in every machine state reachable from startup (any EEPROM contents,
any sequence of debounced presses and ticks) in which the mode is
SET_TIME, the edit cursor lies in [0,18] and equals none of the separator
indices 4, 7, 10, 13, 16. -/
theorem cursor_always_editable (st : Store) (evs : List Event)
    (h : (run (initMachine st) evs).state = AppState.SET_TIME) :
    0 ≤ (run (initMachine st) evs).currentEditPos ∧
    (run (initMachine st) evs).currentEditPos ≤ 18 ∧
    (run (initMachine st) evs).currentEditPos ≠ 4 ∧
    (run (initMachine st) evs).currentEditPos ≠ 7 ∧
    (run (initMachine st) evs).currentEditPos ≠ 10 ∧
    (run (initMachine st) evs).currentEditPos ≠ 13 ∧
    (run (initMachine st) evs).currentEditPos ≠ 16 := by
  have h0 : cursorInv (initMachine st) := by
    intro hs
    simp [initMachine] at hs
  have hp := cursorInv_run (initMachine st) evs h0 h
  unfold isEditablePosition at hp
  split_ifs at hp with h1 h2
  push_neg at h1
  push_neg at h2
  omega

/-- Witness for C8: the reachable state right after entering SET_TIME. -/
theorem cursor_always_editable_witness :
    0 ≤ (run (initMachine ⟨[], []⟩) [Event.press Button.setTime, Event.tick]).currentEditPos ∧
    (run (initMachine ⟨[], []⟩) [Event.press Button.setTime, Event.tick]).currentEditPos ≤ 18 ∧
    (run (initMachine ⟨[], []⟩) [Event.press Button.setTime, Event.tick]).currentEditPos ≠ 4 ∧
    (run (initMachine ⟨[], []⟩) [Event.press Button.setTime, Event.tick]).currentEditPos ≠ 7 ∧
    (run (initMachine ⟨[], []⟩) [Event.press Button.setTime, Event.tick]).currentEditPos ≠ 10 ∧
    (run (initMachine ⟨[], []⟩) [Event.press Button.setTime, Event.tick]).currentEditPos ≠ 13 ∧
    (run (initMachine ⟨[], []⟩) [Event.press Button.setTime, Event.tick]).currentEditPos ≠ 16 :=
  cursor_always_editable ⟨[], []⟩ [Event.press Button.setTime, Event.tick] (by decide)

/-! ## Claim C9: the parse / format round-trip

The lemmas below relate the zero-padded printer (`padIntC`) to the scanner
(`scanInt`): a field printed at width `w` from a value that fits that width
is scanned back to exactly the same value, with the rest of the input
untouched.  `padNat w m` is the canonical `w`-digit form a padded field
takes. -/

/-- Exactly `w` decimal digit characters, least significant digit last. -/
def padNat : Nat → Nat → List Char
  | 0, _ => []
  | w + 1, m => padNat w (m / 10) ++ [digitChar (m % 10)]

/-- The value `scanDigitsAux` accumulates over a fixed digit list. -/
def valA : List Char → Int → Int
  | [], a => a
  | c :: cs, a => valA cs (a * 10 + ((c.toNat : Int) - 48))

theorem valA_append (xs ys : List Char) (a : Int) :
    valA (xs ++ ys) a = valA ys (valA xs a) := by
  induction xs generalizing a with
  | nil => rfl
  | cons c cs ih => exact ih _

theorem padNat_length (w m : Nat) : (padNat w m).length = w := by
  induction w generalizing m with
  | zero => rfl
  | succ w ih => simp [padNat, ih]

theorem digitChar_toNat (k : Nat) (hk : k < 10) : (digitChar k).toNat = 48 + k := by
  interval_cases k <;> decide

theorem digitChar_isScanDigit (k : Nat) (hk : k < 10) :
    isScanDigit (digitChar k) = true := by
  interval_cases k <;> decide

theorem padNat_digits (w m : Nat) : ∀ c ∈ padNat w m, isScanDigit c = true := by
  induction w generalizing m with
  | zero => simp [padNat]
  | succ w ih =>
      intro c hc
      simp only [padNat, List.mem_append, List.mem_singleton] at hc
      rcases hc with hc | hc
      · exact ih _ c hc
      · subst hc
        exact digitChar_isScanDigit _ (Nat.mod_lt _ (by norm_num))

theorem valA_padNat (w m : Nat) (a : Int) (hm : m < 10 ^ w) :
    valA (padNat w m) a = a * 10 ^ w + m := by
  induction w generalizing m a with
  | zero =>
      interval_cases m
      simp [padNat, valA]
  | succ w ih =>
      have hdiv : m / 10 < 10 ^ w := by
        rw [Nat.div_lt_iff_lt_mul (by norm_num)]
        calc m < 10 ^ (w + 1) := hm
          _ = 10 ^ w * 10 := by ring
      rw [padNat, valA_append, ih _ _ hdiv]
      simp only [valA, digitChar_toNat (m % 10) (Nat.mod_lt _ (by norm_num))]
      have hmod : (10 : Int) * ((m / 10 : Nat) : Int) + ((m % 10 : Nat) : Int) = (m : Int) := by
        exact_mod_cast Nat.div_add_mod m 10
      rw [Nat.cast_add, Nat.cast_ofNat, pow_succ]
      linear_combination hmod

theorem scanDigitsAux_exact (xs rest : List Char) (a : Int)
    (h : ∀ c ∈ xs, isScanDigit c = true) :
    scanDigitsAux xs.length (xs ++ rest) a = (valA xs a, rest) := by
  induction xs generalizing a with
  | nil => rfl
  | cons c cs ih =>
      simp only [List.length_cons, List.cons_append, scanDigitsAux, valA]
      rw [if_pos (h c (List.mem_cons_self c cs))]
      exact ih _ (fun d hd => h d (List.mem_cons_of_mem c hd))

theorem scanUInt_digits (xs rest : List Char) (hne : xs ≠ [])
    (h : ∀ c ∈ xs, isScanDigit c = true) :
    scanUInt xs.length (xs ++ rest) = some (valA xs 0, rest) := by
  cases xs with
  | nil => exact absurd rfl hne
  | cons c cs =>
      simp only [List.length_cons, List.cons_append, scanUInt]
      rw [if_pos (h c (List.mem_cons_self c cs))]
      rw [scanDigitsAux_exact cs rest _ (fun d hd => h d (List.mem_cons_of_mem c hd))]
      simp [valA]

/-- A padded field scans back to its value (unsigned core). -/
theorem scanUInt_padNat (w m : Nat) (rest : List Char) (hw : 1 ≤ w)
    (hm : m < 10 ^ w) :
    scanUInt w (padNat w m ++ rest) = some ((m : Int), rest) := by
  have hlen := padNat_length w m
  have hne : padNat w m ≠ [] := by
    intro hb
    rw [hb] at hlen
    simp at hlen
    omega
  have hval : valA (padNat w m) 0 = (m : Int) := by
    simpa using valA_padNat w m 0 hm
  have h := scanUInt_digits (padNat w m) rest hne (padNat_digits w m)
  rw [hlen, hval] at h
  exact h

theorem isScanDigit_not_space (c : Char) (h : isScanDigit c = true) :
    isSpaceChar c = false := by
  simp only [isScanDigit, decide_eq_true_eq] at h
  simp only [isSpaceChar, decide_eq_false_iff_not]
  omega

theorem isScanDigit_ne_dash (c : Char) (h : isScanDigit c = true) : c ≠ '-' := by
  intro hc
  subst hc
  exact absurd h (by decide)

theorem isScanDigit_ne_plus (c : Char) (h : isScanDigit c = true) : c ≠ '+' := by
  intro hc
  subst hc
  exact absurd h (by decide)

theorem skipWS_cons_of_not_space (c : Char) (cs : List Char)
    (h : isSpaceChar c = false) : skipWS (c :: cs) = c :: cs := by
  simp [skipWS, h]

theorem skipWS_cons_space (c : Char) (cs : List Char)
    (h : isSpaceChar c = true) : skipWS (c :: cs) = skipWS cs := by
  simp [skipWS, h]

theorem skipWS_idem (cs : List Char) : skipWS (skipWS cs) = skipWS cs := by
  induction cs with
  | nil => rfl
  | cons c cs ih =>
      by_cases hc : isSpaceChar c = true
      · rw [skipWS_cons_space c cs hc, ih]
      · rw [skipWS_cons_of_not_space c cs (by simpa using hc),
          skipWS_cons_of_not_space c cs (by simpa using hc)]

theorem scanInt_skipWS (w : Nat) (cs : List Char) :
    scanInt w (skipWS cs) = scanInt w cs := by
  unfold scanInt
  rw [skipWS_idem]

/-- `natDigitsAux` produces the canonical digit block `padNat k m` for the
digit count `k` of `m`. -/
theorem natDigitsAux_spec (fuel : Nat) : ∀ (m : Nat) (acc : List Char),
    1 ≤ fuel → m < 10 ^ fuel →
    ∃ k, 1 ≤ k ∧ m < 10 ^ k ∧ (k = 1 ∨ 10 ^ (k - 1) ≤ m) ∧
      natDigitsAux fuel m acc = padNat k m ++ acc := by
  induction fuel with
  | zero => intro m acc hf; omega
  | succ f ih =>
      intro m acc _ hm
      by_cases h10 : m < 10
      · refine ⟨1, le_refl 1, by norm_num; omega, Or.inl rfl, ?_⟩
        simp only [natDigitsAux, if_pos h10]
        have hp1 : padNat 1 m = [digitChar m] := by
          simp [padNat, Nat.mod_eq_of_lt h10]
        rw [hp1]
        rfl
      · have hf1 : 1 ≤ f := by
          by_contra hf0
          push_neg at hf0
          interval_cases f
          norm_num at hm
          omega
        have hdiv : m / 10 < 10 ^ f := by
          rw [Nat.div_lt_iff_lt_mul (by norm_num)]
          calc m < 10 ^ (f + 1) := hm
            _ = 10 ^ f * 10 := by ring
        obtain ⟨k, hk1, hk2, hk3, hk4⟩ := ih (m / 10) (digitChar (m % 10) :: acc) hf1 hdiv
        have hmod := Nat.div_add_mod m 10
        have hmlt := Nat.mod_lt m (show 0 < 10 by norm_num)
        refine ⟨k + 1, by omega, ?_, ?_, ?_⟩
        · have hpk : 10 ^ (k + 1) = 10 * 10 ^ k := by ring
          omega
        · right
          rcases hk3 with rfl | hge
          · simpa using h10
          · have hk0 : k - 1 + 1 = k := by omega
            have : 10 ^ (k - 1) * 10 ≤ (m / 10) * 10 :=
              Nat.mul_le_mul_right 10 hge
            have hdm : (m / 10) * 10 ≤ m := by omega
            calc 10 ^ (k + 1 - 1) = 10 ^ (k - 1) * 10 := by
                  rw [Nat.add_sub_cancel]
                  conv_lhs => rw [← hk0]
                  rw [pow_succ]
              _ ≤ (m / 10) * 10 := Nat.mul_le_mul_right 10 hge
              _ ≤ m := hdm
        · simp only [natDigitsAux, if_neg h10]
          rw [hk4]
          show padNat k (m / 10) ++ ([digitChar (m % 10)] ++ acc) = padNat (k + 1) m ++ acc
          rw [← List.append_assoc]
          rfl

theorem natDigits_spec (m : Nat) :
    ∃ k, 1 ≤ k ∧ m < 10 ^ k ∧ (k = 1 ∨ 10 ^ (k - 1) ≤ m) ∧
      natDigits m = padNat k m := by
  have hm : m < 10 ^ (m + 1) := by
    calc m < 10 ^ m := Nat.lt_pow_self (by norm_num) m
      _ ≤ 10 ^ (m + 1) := Nat.pow_le_pow_right (by norm_num) (Nat.le_succ m)
  obtain ⟨k, h1, h2, h3, h4⟩ := natDigitsAux_spec (m + 1) m [] (by omega) hm
  refine ⟨k, h1, h2, h3, ?_⟩
  rw [natDigits, h4, List.append_nil]

/-- A value one digit-count short gets a leading zero. -/
theorem padNat_succ_of_lt (w : Nat) : ∀ m : Nat, m < 10 ^ w →
    padNat (w + 1) m = '0' :: padNat w m := by
  induction w with
  | zero =>
      intro m hm
      norm_num at hm
      subst hm
      rfl
  | succ w ih =>
      intro m hm
      have hdiv : m / 10 < 10 ^ w := by
        rw [Nat.div_lt_iff_lt_mul (by norm_num)]
        calc m < 10 ^ (w + 1) := hm
          _ = 10 ^ w * 10 := by ring
      show padNat (w + 1) (m / 10) ++ [digitChar (m % 10)] = '0' :: padNat (w + 1) m
      rw [ih (m / 10) hdiv]
      rfl

theorem padNat_replicate (w : Nat) : ∀ (k m : Nat), k ≤ w → m < 10 ^ k →
    padNat w m = List.replicate (w - k) '0' ++ padNat k m := by
  induction w with
  | zero =>
      intro k m hk _
      interval_cases k
      simp
  | succ w ih =>
      intro k m hk hm
      by_cases hkw : k = w + 1
      · subst hkw
        simp
      · have hk' : k ≤ w := by omega
        have hm' : m < 10 ^ w :=
          lt_of_lt_of_le hm (Nat.pow_le_pow_right (by norm_num) hk')
        rw [padNat_succ_of_lt w m hm', ih k m hk' hm]
        have hsub : w + 1 - k = (w - k) + 1 := by omega
        rw [hsub, List.replicate_succ]
        rfl

/-- Left-padding the plain digits to width `w` gives the canonical padded
block, whenever the value fits the width. -/
theorem leftPad_natDigits (w m : Nat) (hw : 1 ≤ w) (hm : m < 10 ^ w) :
    leftPad w (natDigits m) = padNat w m := by
  obtain ⟨k, hk1, hk2, hk3, hk4⟩ := natDigits_spec m
  have hkw : k ≤ w := by
    rcases hk3 with rfl | hge
    · exact hw
    · by_contra hkw
      push_neg at hkw
      have hle : 10 ^ w ≤ 10 ^ (k - 1) :=
        Nat.pow_le_pow_right (by norm_num) (by omega)
      omega
  rw [leftPad, hk4, padNat_length]
  exact (padNat_replicate w k m hkw hk2).symm

theorem padIntC_nonneg (w : Nat) (n : Int) (h0 : 0 ≤ n) (hw : 1 ≤ w)
    (hn : n < 10 ^ w) : padIntC w n = padNat w n.natAbs := by
  rw [padIntC, if_neg (by omega)]
  have hcast : ((10 ^ w : Nat) : Int) = (10 : Int) ^ w := by push_cast; ring
  exact leftPad_natDigits w n.natAbs hw (by omega)

/-- A zero-padded nonnegative field, followed by anything, scans back to its
value. -/
theorem scanInt_padNat (w m : Nat) (rest : List Char) (hw : 1 ≤ w)
    (hm : m < 10 ^ w) :
    scanInt w (padNat w m ++ rest) = some ((m : Int), rest) := by
  have hlen := padNat_length w m
  have hdigs := padNat_digits w m
  have hsu := scanUInt_padNat w m rest hw hm
  cases hpn : padNat w m with
  | nil =>
      rw [hpn] at hlen
      simp at hlen
      omega
  | cons c cs =>
      have hcdig : isScanDigit c = true := by
        apply hdigs
        rw [hpn]
        exact List.mem_cons_self c cs
      rw [hpn] at hsu
      unfold scanInt
      rw [List.cons_append, skipWS_cons_of_not_space c _ (isScanDigit_not_space c hcdig)]
      dsimp only
      rw [if_neg (isScanDigit_ne_dash c hcdig), if_neg (isScanDigit_ne_plus c hcdig)]
      exact hsu

/-- The printed `%0wd` field of any value that fits the width scans back to
exactly that value (`scanInt` / `padIntC` round-trip). -/
theorem scanInt_padIntC (w : Nat) (n : Int) (rest : List Char) (hw : 1 ≤ w)
    (hlo : -(10 ^ (w - 1) : Int) < n) (hhi : n < 10 ^ w) :
    scanInt w (padIntC w n ++ rest) = some (n, rest) := by
  by_cases h0 : 0 ≤ n
  · have hcast : ((10 ^ w : Nat) : Int) = (10 : Int) ^ w := by push_cast; ring
    have habs : n.natAbs < 10 ^ w := by omega
    rw [padIntC_nonneg w n h0 hw hhi, scanInt_padNat w n.natAbs rest hw habs]
    have : (n.natAbs : Int) = n := Int.natAbs_of_nonneg h0
    rw [this]
  · push_neg at h0
    have hw2 : 2 ≤ w := by
      by_contra hw1
      push_neg at hw1
      interval_cases w
      norm_num at hlo
      omega
    have hcast : ((10 ^ (w - 1) : Nat) : Int) = (10 : Int) ^ (w - 1) := by
      push_cast; ring
    have habs : n.natAbs < 10 ^ (w - 1) := by omega
    rw [padIntC, if_pos h0, leftPad_natDigits (w - 1) n.natAbs (by omega) habs]
    unfold scanInt
    rw [List.cons_append, skipWS_cons_of_not_space '-' _ (by decide)]
    dsimp only
    rw [if_pos rfl]
    rw [scanUInt_padNat (w - 1) n.natAbs rest (by omega) habs]
    simp only [Option.map_some']
    have : -((n.natAbs : Int)) = n := by omega
    rw [this]

/-- A field that fits its width prints at exactly that width. -/
theorem padIntC_length (w : Nat) (n : Int) (hw : 1 ≤ w)
    (hlo : -(10 ^ (w - 1) : Int) < n) (hhi : n < 10 ^ w) :
    (padIntC w n).length = w := by
  by_cases h0 : 0 ≤ n
  · rw [padIntC_nonneg w n h0 hw hhi, padNat_length]
  · push_neg at h0
    have hw2 : 2 ≤ w := by
      by_contra hw1
      push_neg at hw1
      interval_cases w
      norm_num at hlo
      omega
    have hcast : ((10 ^ (w - 1) : Nat) : Int) = (10 : Int) ^ (w - 1) := by
      push_cast; ring
    have habs : n.natAbs < 10 ^ (w - 1) := by omega
    rw [padIntC, if_pos h0, leftPad_natDigits (w - 1) n.natAbs (by omega) habs]
    simp only [List.length_cons, padNat_length]
    omega

theorem scanDigitsAux_bound (w : Nat) : ∀ (cs : List Char) (a : Int), 0 ≤ a →
    0 ≤ (scanDigitsAux w cs a).1 ∧ (scanDigitsAux w cs a).1 < (a + 1) * 10 ^ w := by
  induction w with
  | zero =>
      intro cs a ha
      simp only [scanDigitsAux, pow_zero, mul_one]
      exact ⟨ha, by omega⟩
  | succ w ih =>
      intro cs a ha
      have hp : (0 : Int) < 10 ^ w := pow_pos (by norm_num) w
      cases cs with
      | nil =>
          simp only [scanDigitsAux]
          refine ⟨ha, ?_⟩
          have : (0 : Int) < 10 ^ (w + 1) := pow_pos (by norm_num) (w + 1)
          nlinarith
      | cons c cs =>
          simp only [scanDigitsAux]
          split_ifs with hc
          · have hd : 0 ≤ ((c.toNat : Int) - 48) ∧ ((c.toNat : Int) - 48) ≤ 9 := by
              simp only [isScanDigit, decide_eq_true_eq] at hc
              omega
            have hb := ih cs (a * 10 + ((c.toNat : Int) - 48)) (by omega)
            refine ⟨hb.1, ?_⟩
            calc (scanDigitsAux w cs (a * 10 + ((c.toNat : Int) - 48))).1
                < (a * 10 + ((c.toNat : Int) - 48) + 1) * 10 ^ w := hb.2
              _ ≤ ((a + 1) * 10) * 10 ^ w := by nlinarith
              _ = (a + 1) * 10 ^ (w + 1) := by ring
          · refine ⟨ha, ?_⟩
            have : (0 : Int) < 10 ^ (w + 1) := pow_pos (by norm_num) (w + 1)
            simp only []
            nlinarith

theorem scanUInt_bound (w : Nat) (cs : List Char) (v : Int) (r : List Char)
    (h : scanUInt w cs = some (v, r)) : 0 ≤ v ∧ v < 10 ^ w := by
  match w, cs with
  | 0, cs => simp [scanUInt] at h
  | w + 1, [] => simp [scanUInt] at h
  | w + 1, c :: cs =>
      simp only [scanUInt] at h
      split_ifs at h with hc
      · have hd : 0 ≤ ((c.toNat : Int) - 48) ∧ ((c.toNat : Int) - 48) ≤ 9 := by
          simp only [isScanDigit, decide_eq_true_eq] at hc
          omega
        have hb := scanDigitsAux_bound w cs ((c.toNat : Int) - 48) hd.1
        have hv : (scanDigitsAux w cs ((c.toNat : Int) - 48)).1 = v := by
          have h' : scanDigitsAux w cs ((c.toNat : Int) - 48) = (v, r) :=
            Option.some_inj.mp h
          rw [h']
        rw [hv] at hb
        have hp : (0 : Int) < 10 ^ w := pow_pos (by norm_num) w
        refine ⟨hb.1, ?_⟩
        calc v < ((c.toNat : Int) - 48 + 1) * 10 ^ w := hb.2
          _ ≤ 10 * 10 ^ w := by nlinarith
          _ = 10 ^ (w + 1) := by ring

theorem scanInt_bound (w : Nat) (cs : List Char) (v : Int) (r : List Char)
    (h : scanInt w cs = some (v, r)) :
    -(10 ^ (w - 1) : Int) < v ∧ v < 10 ^ w := by
  have hp1 : (0 : Int) < 10 ^ (w - 1) := pow_pos (by norm_num) (w - 1)
  have hple : (10 : Int) ^ (w - 1) ≤ 10 ^ w :=
    pow_le_pow_right (by norm_num) (by omega)
  unfold scanInt at h
  cases hsk : skipWS cs with
  | nil =>
      rw [hsk] at h
      simp at h
  | cons c cs' =>
      rw [hsk] at h
      dsimp only at h
      split_ifs at h with h1 h2
      · cases hsu : scanUInt (w - 1) cs' with
        | none =>
            rw [hsu] at h
            simp at h
        | some p =>
            obtain ⟨p1, p2⟩ := p
            rw [hsu] at h
            simp only [Option.map_some', Option.some_inj] at h
            have hb := scanUInt_bound (w - 1) cs' p1 p2 hsu
            have hv : v = -p1 := by
              have hfst := congrArg Prod.fst h
              simpa using hfst.symm
            constructor <;> omega
      · have hb := scanUInt_bound (w - 1) cs' v r h
        constructor <;> omega
      · have hb := scanUInt_bound w (c :: cs') v r h
        constructor <;> omega

/-- Decomposition of a successful parse: the six scanned raw values, each
within the range its conversion width permits. -/
theorem parseParts (cs : List Char) (t : Tm)
    (h : parseEditBufferToTm cs = some t) :
    ∃ (y mo d hh mi s : Int),
      t = ⟨y - 1900, mo - 1, d, hh, mi, s⟩ ∧
      -(10 ^ (4 - 1 : Nat) : Int) < y ∧ y < 10 ^ (4 : Nat) ∧
      -(10 ^ (2 - 1 : Nat) : Int) < mo ∧ mo < 10 ^ (2 : Nat) ∧
      -(10 ^ (2 - 1 : Nat) : Int) < d ∧ d < 10 ^ (2 : Nat) ∧
      -(10 ^ (2 - 1 : Nat) : Int) < hh ∧ hh < 10 ^ (2 : Nat) ∧
      -(10 ^ (2 - 1 : Nat) : Int) < mi ∧ mi < 10 ^ (2 : Nat) ∧
      -(10 ^ (2 - 1 : Nat) : Int) < s ∧ s < 10 ^ (2 : Nat) := by
  unfold parseEditBufferToTm at h
  cases hy : scanInt 4 cs with
  | none => rw [hy] at h; exact absurd h (by simp)
  | some py =>
  obtain ⟨y, r1⟩ := py
  rw [hy] at h
  simp only [Option.bind_eq_bind', Option.some_bind'] at h
  cases h2 : matchLit '/' r1 with
  | none => rw [h2] at h; exact absurd h (by simp)
  | some r2 =>
  rw [h2] at h
  simp only [Option.bind_eq_bind', Option.some_bind'] at h
  cases hmo : scanInt 2 r2 with
  | none => rw [hmo] at h; exact absurd h (by simp)
  | some pmo =>
  obtain ⟨mo, r3⟩ := pmo
  rw [hmo] at h
  simp only [Option.bind_eq_bind', Option.some_bind'] at h
  cases h4 : matchLit '/' r3 with
  | none => rw [h4] at h; exact absurd h (by simp)
  | some r4 =>
  rw [h4] at h
  simp only [Option.bind_eq_bind', Option.some_bind'] at h
  cases hd : scanInt 2 r4 with
  | none => rw [hd] at h; exact absurd h (by simp)
  | some pd =>
  obtain ⟨d, r5⟩ := pd
  rw [hd] at h
  simp only [Option.bind_eq_bind', Option.some_bind'] at h
  cases hhh : scanInt 2 (skipWS r5) with
  | none => rw [hhh] at h; exact absurd h (by simp)
  | some phh =>
  obtain ⟨hh, r7⟩ := phh
  rw [hhh] at h
  simp only [Option.bind_eq_bind', Option.some_bind'] at h
  cases h8 : matchLit ':' r7 with
  | none => rw [h8] at h; exact absurd h (by simp)
  | some r8 =>
  rw [h8] at h
  simp only [Option.bind_eq_bind', Option.some_bind'] at h
  cases hmi : scanInt 2 r8 with
  | none => rw [hmi] at h; exact absurd h (by simp)
  | some pmi =>
  obtain ⟨mi, r9⟩ := pmi
  rw [hmi] at h
  simp only [Option.bind_eq_bind', Option.some_bind'] at h
  cases h10 : matchLit ':' r9 with
  | none => rw [h10] at h; exact absurd h (by simp)
  | some r10 =>
  rw [h10] at h
  simp only [Option.bind_eq_bind', Option.some_bind'] at h
  cases hs : scanInt 2 r10 with
  | none => rw [hs] at h; exact absurd h (by simp)
  | some ps =>
  obtain ⟨s, r11⟩ := ps
  rw [hs] at h
  simp only [Option.bind_eq_bind', Option.some_bind'] at h
  have ht : t = ⟨y - 1900, mo - 1, d, hh, mi, s⟩ := by
    cases h
    rfl
  refine ⟨y, mo, d, hh, mi, s, ht, ?_, ?_, ?_, ?_, ?_, ?_, ?_, ?_, ?_, ?_, ?_, ?_⟩
  · exact (scanInt_bound 4 cs y r1 hy).1
  · exact (scanInt_bound 4 cs y r1 hy).2
  · exact (scanInt_bound 2 r2 mo r3 hmo).1
  · exact (scanInt_bound 2 r2 mo r3 hmo).2
  · exact (scanInt_bound 2 r4 d r5 hd).1
  · exact (scanInt_bound 2 r4 d r5 hd).2
  · exact (scanInt_bound 2 (skipWS r5) hh r7 hhh).1
  · exact (scanInt_bound 2 (skipWS r5) hh r7 hhh).2
  · exact (scanInt_bound 2 r8 mi r9 hmi).1
  · exact (scanInt_bound 2 r8 mi r9 hmi).2
  · exact (scanInt_bound 2 r10 s r11 hs).1
  · exact (scanInt_bound 2 r10 s r11 hs).2

theorem matchLit_self (c : Char) (rest : List Char) :
    matchLit c (c :: rest) = some rest := by
  simp [matchLit]

/-- The formatted rendering of any successfully parsed timestamp parses back
to exactly the same calendar value. -/
theorem parse_formatDisp (y mo d hh mi s : Int)
    (hy1 : -(10 ^ (4 - 1 : Nat) : Int) < y) (hy2 : y < 10 ^ (4 : Nat))
    (hmo1 : -(10 ^ (2 - 1 : Nat) : Int) < mo) (hmo2 : mo < 10 ^ (2 : Nat))
    (hd1 : -(10 ^ (2 - 1 : Nat) : Int) < d) (hd2 : d < 10 ^ (2 : Nat))
    (hh1 : -(10 ^ (2 - 1 : Nat) : Int) < hh) (hh2 : hh < 10 ^ (2 : Nat))
    (hmi1 : -(10 ^ (2 - 1 : Nat) : Int) < mi) (hmi2 : mi < 10 ^ (2 : Nat))
    (hs1 : -(10 ^ (2 - 1 : Nat) : Int) < s) (hs2 : s < 10 ^ (2 : Nat)) :
    parseEditBufferToTm (formatDisp ⟨y - 1900, mo - 1, d, hh, mi, s⟩) =
      some ⟨y - 1900, mo - 1, d, hh, mi, s⟩ := by
  have hfd : formatDisp ⟨y - 1900, mo - 1, d, hh, mi, s⟩ =
      padIntC 4 y ++ '/' :: (padIntC 2 mo ++ '/' :: (padIntC 2 d ++
        ' ' :: (padIntC 2 hh ++ ':' :: (padIntC 2 mi ++ ':' :: padIntC 2 s)))) := by
    simp only [formatDisp, sub_add_cancel, List.cons_append, List.append_assoc]
  rw [hfd]
  unfold parseEditBufferToTm
  rw [scanInt_padIntC 4 y _ (by norm_num) hy1 hy2]
  simp only [Option.bind_eq_bind', Option.some_bind']
  rw [matchLit_self]
  simp only [Option.bind_eq_bind', Option.some_bind']
  rw [scanInt_padIntC 2 mo _ (by norm_num) hmo1 hmo2]
  simp only [Option.bind_eq_bind', Option.some_bind']
  rw [matchLit_self]
  simp only [Option.bind_eq_bind', Option.some_bind']
  rw [scanInt_padIntC 2 d _ (by norm_num) hd1 hd2]
  simp only [Option.bind_eq_bind', Option.some_bind']
  rw [skipWS_cons_space _ _ (by decide), scanInt_skipWS]
  rw [scanInt_padIntC 2 hh _ (by norm_num) hh1 hh2]
  simp only [Option.bind_eq_bind', Option.some_bind']
  rw [matchLit_self]
  simp only [Option.bind_eq_bind', Option.some_bind']
  rw [scanInt_padIntC 2 mi _ (by norm_num) hmi1 hmi2]
  simp only [Option.bind_eq_bind', Option.some_bind']
  rw [matchLit_self]
  simp only [Option.bind_eq_bind', Option.some_bind']
  rw [← List.append_nil (padIntC 2 s), scanInt_padIntC 2 s [] (by norm_num) hs1 hs2]
  simp only [Option.bind_eq_bind', Option.some_bind']
  rfl

/-- C9: for every string that parses successfully as a timestamp, the
zero-padded fixed-width rendering of the parsed value (the normalisation the
display code applies) parses back to exactly the same value; hence applying
format-of-parse to an already-formatted string returns it unchanged
(idempotence), and the formatted string has the full fixed width 19. -/
theorem format_parse_idempotent (cs : List Char) (t : Tm)
    (h : parseEditBufferToTm cs = some t) :
    parseEditBufferToTm (formatDisp t) = some t ∧
    (parseEditBufferToTm (formatDisp t)).map formatDisp = some (formatDisp t) ∧
    (formatDisp t).length = 19 := by
  obtain ⟨y, mo, d, hh, mi, s, ht, hy1, hy2, hmo1, hmo2, hd1, hd2, hh1, hh2,
    hmi1, hmi2, hs1, hs2⟩ := parseParts cs t h
  subst ht
  have hp := parse_formatDisp y mo d hh mi s hy1 hy2 hmo1 hmo2 hd1 hd2
    hh1 hh2 hmi1 hmi2 hs1 hs2
  refine ⟨hp, ?_, ?_⟩
  · rw [hp]
    rfl
  · have hfd : formatDisp ⟨y - 1900, mo - 1, d, hh, mi, s⟩ =
        padIntC 4 y ++ '/' :: (padIntC 2 mo ++ '/' :: (padIntC 2 d ++
          ' ' :: (padIntC 2 hh ++ ':' :: (padIntC 2 mi ++ ':' :: padIntC 2 s)))) := by
      simp only [formatDisp, sub_add_cancel, List.cons_append, List.append_assoc]
    rw [hfd]
    simp only [List.length_append, List.length_cons]
    rw [padIntC_length 4 y (by norm_num) hy1 hy2,
      padIntC_length 2 mo (by norm_num) hmo1 hmo2,
      padIntC_length 2 d (by norm_num) hd1 hd2,
      padIntC_length 2 hh (by norm_num) hh1 hh2,
      padIntC_length 2 mi (by norm_num) hmi1 hmi2,
      padIntC_length 2 s (by norm_num) hs1 hs2]

/-- Witness for C9: the single-digit month in "2025/6/15 12:30:00" parses,
and its normalisation "2025/06/15 12:30:00" is a fixed point of
format-of-parse. -/
theorem format_parse_idempotent_witness :
    parseEditBufferToTm (formatDisp ⟨125, 5, 15, 12, 30, 0⟩) =
      some ⟨125, 5, 15, 12, 30, 0⟩ ∧
    (parseEditBufferToTm (formatDisp ⟨125, 5, 15, 12, 30, 0⟩)).map formatDisp =
      some (formatDisp ⟨125, 5, 15, 12, 30, 0⟩) ∧
    (formatDisp ⟨125, 5, 15, 12, 30, 0⟩).length = 19 :=
  format_parse_idempotent ("2025/6/15 12:30:00".toList) ⟨125, 5, 15, 12, 30, 0⟩
    (by decide)
